import Mathlib

/-!
Verification of the quant-data-engine ingestion pipeline.

Shallow embedding of the Go sources:
* `internal/models/models.go`     — the `MarketData` record.
* `internal/storage/postgres.go`  — `validateMarketData`, `SaveMarketData`
  (the stored table is modelled as a list of rows; the `ON CONFLICT (id)
  DO NOTHING` insert is modelled by `insertOnConflictDoNothing`).
* `internal/datasource/datasource.go` — the `DataSource` interface and the
  `DataSourceFactory` registry (a Go map, modelled as a function
  `String → Option DataSource`).
* `internal/datasource/exchange.go` — `ExchangeDataSource.GetMarketData` and
  `GetHistoricalData`; the non-deterministic runtime inputs (uuid generation,
  `time.Now()`, `rand.Float64()`) are supplied through explicit environments,
  and `time.Parse` of an RFC3339 string is modelled by its result
  (`Option Int`: `some t` when the string parses to time `t`).
* `cmd/data-engine/main.go` — the dispatch cycle `processData` (outer loop on
  symbols, inner loop on the fixed source-name list) and the ticker loop of
  `startDataProcessing`; `internal/schedule/schedule.go` — `Scheduler.Start`.

Go `float64` prices/volumes are modelled as rationals, `time.Time` as an
integer instant whose zero value is `0`.
-/

/-- `models.MarketData` (internal/models/models.go). -/
structure MarketData where
  ID : String
  Symbol : String
  Price : ℚ
  Volume : ℚ
  Timestamp : Int
  Source : String
deriving DecidableEq, Repr

/-- `validateMarketData` (internal/storage/postgres.go, lines 160-180):
the six field checks in source order, first failure wins. -/
def validateMarketData (d : MarketData) : Except String Unit :=
  if d.ID = "" then .error "id is required"
  else if d.Symbol = "" then .error "symbol is required"
  else if d.Price ≤ 0 then .error "price must be greater than 0"
  else if d.Volume < 0 then .error "volume cannot be negative"
  else if d.Timestamp = 0 then .error "timestamp is required"
  else if d.Source = "" then .error "source is required"
  else .ok ()

/-- The six validated fields, in the fixed order stated by the spec
(§4.2: id, symbol, price, volume, timestamp, source). -/
inductive MDField
  | id | symbol | price | volume | timestamp | source
deriving DecidableEq, Repr

/-- Modelled from the spec (§4.2): whether an observation violates the rule
attached to one field. -/
def fieldViolated (f : MDField) (d : MarketData) : Bool :=
  match f with
  | .id => d.ID = ""
  | .symbol => d.Symbol = ""
  | .price => decide (d.Price ≤ 0)
  | .volume => decide (d.Volume < 0)
  | .timestamp => d.Timestamp = 0
  | .source => d.Source = ""

/-- Modelled from the spec (§4.2): the stable field order. -/
def specFieldOrder : List MDField :=
  [.id, .symbol, .price, .volume, .timestamp, .source]

/-- Modelled from the spec (§4.2): the first violated field in the stable
order, if any. -/
def firstViolatedField (d : MarketData) : Option MDField :=
  specFieldOrder.find? (fun f => fieldViolated f d)

/-- The error message the Go validator emits for each field. -/
def fieldErrorMessage : MDField → String
  | .id => "id is required"
  | .symbol => "symbol is required"
  | .price => "price must be greater than 0"
  | .volume => "volume cannot be negative"
  | .timestamp => "timestamp is required"
  | .source => "source is required"

/-- Modelled from the spec (§4.2): all six field rules hold. -/
def allFieldRulesHold (d : MarketData) : Prop :=
  d.ID ≠ "" ∧ d.Symbol ≠ "" ∧ 0 < d.Price ∧ 0 ≤ d.Volume ∧
    d.Timestamp ≠ 0 ∧ d.Source ≠ ""

/-- C1: `validateMarketData` succeeds iff all six field rules hold, and on
failure it reports exactly the first violated field in the stable order
id, symbol, price, volume, timestamp, source. -/
theorem validateMarketData_spec (o : MarketData) :
    validateMarketData o =
      (match firstViolatedField o with
        | some f => .error (fieldErrorMessage f)
        | none => .ok ()) ∧
    (firstViolatedField o = none ↔ allFieldRulesHold o) := by
  by_cases h1 : o.ID = "" <;> by_cases h2 : o.Symbol = "" <;>
    by_cases h3 : o.Price ≤ 0 <;> by_cases h4 : o.Volume < 0 <;>
    by_cases h5 : o.Timestamp = 0 <;> by_cases h6 : o.Source = "" <;>
    simp [validateMarketData, firstViolatedField, specFieldOrder,
      fieldViolated, fieldErrorMessage, allFieldRulesHold, List.find?,
      h1, h2, h3, h4, h5, h6] <;>
    simp_all [not_le, not_lt]

/-! ## Storage sink: `SaveMarketData` (internal/storage/postgres.go) -/

/-- The stored `market_data` table, as the list of inserted rows. -/
abbrev StoreState := List MarketData

/-- One `INSERT ... ON CONFLICT (id) DO NOTHING` execution: a row whose `id`
is already present leaves the table unchanged. -/
def insertOnConflictDoNothing (st : StoreState) (d : MarketData) : StoreState :=
  if st.any (fun r => r.ID = d.ID) then st else st ++ [d]

/-- The validation loop of `SaveMarketData` (postgres.go lines 123-128):
each observation is validated in order; the first failure aborts with an
error naming its index. -/
def validateBatch (i : Nat) (data : List MarketData) : Except String Unit :=
  match data with
  | [] => .ok ()
  | d :: rest =>
    match validateMarketData d with
    | .error e =>
      .error ("invalid market data at index " ++ toString i ++ ": " ++ e)
    | .ok () => validateBatch (i + 1) rest

/-- `SaveMarketData` (postgres.go lines 118-157): empty batches succeed
immediately; otherwise the whole batch is validated before any insert, and
on success every row is inserted inside one transaction with
`ON CONFLICT (id) DO NOTHING`.  A validation error rolls back, leaving the
stored state unchanged (the error value carries no new state). -/
def SaveMarketData (data : List MarketData) (st : StoreState) :
    Except String StoreState :=
  if data = [] then .ok st
  else
    match validateBatch 0 data with
    | .error e => .error e
    | .ok () => .ok (data.foldl insertOnConflictDoNothing st)

/-! ## Source registry: `DataSourceFactory` (internal/datasource/datasource.go) -/

/-- The `DataSource` interface (datasource.go lines 9-18).  RFC3339 parsing
of the historical-range strings is modelled by its outcome
(`some t` = the string parses to instant `t`). -/
structure DataSource where
  getMarketData : String → Except String (List MarketData)
  getHistoricalData : String → Option Int → Option Int →
    Except String (List MarketData)
  name : String

/-- The registry's Go map `sources`, modelled as a total lookup function. -/
def DataSourceFactory := String → Option DataSource

/-- `NewDataSourceFactory` (datasource.go lines 27-31): the empty map. -/
def NewDataSourceFactory : DataSourceFactory := fun _ => none

/-- `Register` (datasource.go lines 34-38): map assignment
`f.sources[name] = source`, inserting or replacing the binding. -/
def Register (f : DataSourceFactory) (name : String) (source : DataSource) :
    DataSourceFactory :=
  fun k => if k = name then some source else f k

/-- `GetDataSource` (datasource.go lines 41-45): Go map lookup, `nil`
(here `none`) when the name is absent. -/
def GetDataSource (f : DataSourceFactory) (name : String) : Option DataSource :=
  f name

/-- Registering a list of (name, source) pairs in order, starting from the
empty factory — how `main` builds the registry. -/
def registerAll (regs : List (String × DataSource)) : DataSourceFactory :=
  regs.foldl (fun f p => Register f p.1 p.2) NewDataSourceFactory

/-! ## Ingestion dispatcher: `processData` (cmd/data-engine/main.go) -/

/-- The fixed inner-loop source-name list of `processData`
(main.go line 127). -/
def sourceNames : List String := ["binance", "okx"]

/-- The dispatcher-visible state of one cycle: the stored table, the list of
batches with which the Kafka producer's `SendMarketData` has been invoked,
and the trace of (symbol, source-name) pairs the loop has visited. -/
structure EngineState where
  store : StoreState
  busCalls : List (List MarketData)
  visited : List (String × String)
deriving DecidableEq

/-- The body of `processData`'s inner loop (main.go lines 128-157) for one
(symbol, source-name) pair: resolve the source (`continue` when absent),
fetch (`continue` on error), skip empty batches, save to storage
(`continue` on error, skipping the bus), then invoke the bus publish.
Every `continue` leaves the state unchanged. -/
def processPair (factory : DataSourceFactory) (symbol sourceName : String)
    (st : EngineState) : EngineState :=
  match GetDataSource factory sourceName with
  | none => st
  | some source =>
    match source.getMarketData symbol with
    | .error _ => st
    | .ok data =>
      if data = [] then st
      else
        match SaveMarketData data st.store with
        | .error _ => st
        | .ok store2 =>
          { st with store := store2, busCalls := st.busCalls ++ [data] }

/-- `processData` (main.go lines 122-162): symbols as the outer loop,
the fixed source names as the inner loop; each visited pair is recorded and
handled by `processPair`.  The function is total: no per-pair failure
escapes it, matching the Go function's error-free signature. -/
def processData (factory : DataSourceFactory) (symbols : List String)
    (st : EngineState) : EngineState :=
  symbols.foldl
    (fun st1 symbol =>
      sourceNames.foldl
        (fun st2 sourceName =>
          processPair factory symbol sourceName
            { st2 with visited := st2.visited ++ [(symbol, sourceName)] })
        st1)
    st

/-! ## Fail-closed batching and storage-before-bus -/

/-- A batch containing an invalid observation makes the validation loop of
`SaveMarketData` fail (at the first invalid index). -/
theorem validateBatch_error_of_invalid {data : List MarketData}
    (h : ∃ d ∈ data, validateMarketData d ≠ .ok ()) (i : Nat) :
    ∃ e, validateBatch i data = .error e := by
  induction data generalizing i with
  | nil =>
    obtain ⟨d, hd, _⟩ := h
    exact absurd hd (List.not_mem_nil d)
  | cons a rest ih =>
    obtain ⟨d, hd, hval⟩ := h
    rcases List.mem_cons.mp hd with rfl | hmem
    · cases hv : validateMarketData d with
      | error e =>
        exact ⟨"invalid market data at index " ++ toString i ++ ": " ++ e,
          by simp [validateBatch, hv]⟩
      | ok u => cases u; exact absurd hv hval
    · cases hv : validateMarketData a with
      | error e =>
        exact ⟨"invalid market data at index " ++ toString i ++ ": " ++ e,
          by simp [validateBatch, hv]⟩
      | ok u =>
        cases u
        obtain ⟨e, he⟩ := ih ⟨d, hmem, hval⟩ (i + 1)
        exact ⟨e, by simp [validateBatch, hv, he]⟩

/-- A batch containing an invalid observation makes `SaveMarketData` return
an error (before any insert: the error carries the unchanged state away). -/
theorem saveMarketData_error_of_invalid {data : List MarketData}
    (st : StoreState) (h : ∃ d ∈ data, validateMarketData d ≠ .ok ()) :
    ∃ e, SaveMarketData data st = .error e := by
  have hne : data ≠ [] := by
    rintro rfl
    obtain ⟨d, hd, _⟩ := h
    exact (List.not_mem_nil d) hd
  obtain ⟨e, he⟩ := validateBatch_error_of_invalid h 0
  exact ⟨e, by simp [SaveMarketData, hne, he]⟩

/-- C2: if the batch fetched for one (symbol, source) pair contains an
invalid observation, `SaveMarketData` returns an error (no insert is
performed) and the dispatcher leaves the whole state unchanged — in
particular the bus publish is never invoked for that pair. -/
theorem processPair_failClosed
    (factory : DataSourceFactory) (symbol sourceName : String)
    (source : DataSource) (data : List MarketData) (st : EngineState)
    (hres : GetDataSource factory sourceName = some source)
    (hfetch : source.getMarketData symbol = .ok data)
    (hbad : ∃ d ∈ data, validateMarketData d ≠ .ok ()) :
    (∃ e, SaveMarketData data st.store = .error e) ∧
      processPair factory symbol sourceName st = st := by
  have hne : data ≠ [] := by
    rintro rfl
    obtain ⟨d, hd, _⟩ := hbad
    exact (List.not_mem_nil d) hd
  obtain ⟨e, he⟩ := saveMarketData_error_of_invalid st.store hbad
  refine ⟨⟨e, he⟩, ?_⟩
  simp [processPair, hres, hfetch, hne, he]

/-- C3: within one (symbol, source) pair, if the storage save fails for the
fetched batch, the dispatcher leaves the state unchanged: the bus publish
is never invoked for that pair (storage-before-bus). -/
theorem processPair_storageBeforeBus
    (factory : DataSourceFactory) (symbol sourceName : String)
    (source : DataSource) (data : List MarketData) (st : EngineState)
    (e : String)
    (hres : GetDataSource factory sourceName = some source)
    (hfetch : source.getMarketData symbol = .ok data)
    (hsave : SaveMarketData data st.store = .error e) :
    processPair factory symbol sourceName st = st := by
  by_cases hne : data = []
  · subst hne
    simp [SaveMarketData] at hsave
  · simp [processPair, hres, hfetch, hne, hsave]

/-! ## Per-pair isolation: the cycle visits every pair (C4) -/

/-- `processPair` never touches the visited trace: every outcome (missing
source, fetch error, empty batch, storage error, success) leaves it as it
was. -/
theorem processPair_visited (factory : DataSourceFactory)
    (symbol sourceName : String) (st : EngineState) :
    (processPair factory symbol sourceName st).visited = st.visited := by
  unfold processPair
  repeat' split
  all_goals rfl

/-- The inner loop over source names visits exactly `names`, in order, for
the current symbol — whatever the sources do. -/
theorem innerLoop_visited (factory : DataSourceFactory) (symbol : String)
    (names : List String) (st : EngineState) :
    (names.foldl
        (fun st2 sourceName =>
          processPair factory symbol sourceName
            { st2 with visited := st2.visited ++ [(symbol, sourceName)] })
        st).visited
      = st.visited ++ names.map (fun n => (symbol, n)) := by
  induction names generalizing st with
  | nil => simp
  | cons a rest ih =>
    simp only [List.foldl_cons, List.map_cons]
    rw [ih, processPair_visited]
    simp

/-- C4: one dispatch cycle visits exactly the Cartesian product of the
supplied symbols (outer loop, in order) with the fixed source names (inner
loop, in order) — for every factory, every source behavior and every
starting state; no per-pair failure aborts the cycle, and `processData`
is a total function (it never escalates a per-pair failure). -/
theorem processData_visitsAllPairs (factory : DataSourceFactory)
    (symbols : List String) (st : EngineState) :
    (processData factory symbols st).visited =
      st.visited ++
        symbols.flatMap (fun sym => sourceNames.map (fun n => (sym, n))) := by
  induction symbols generalizing st with
  | nil => simp [processData]
  | cons a rest ih =>
    have h0 :
        processData factory (a :: rest) st =
          processData factory rest
            (sourceNames.foldl
              (fun st2 sourceName =>
                processPair factory a sourceName
                  { st2 with visited := st2.visited ++ [(a, sourceName)] })
              st) := rfl
    rw [h0, ih, innerLoop_visited]
    simp

/-! ## Idempotence of the storage sink (C7) -/

/-- Inserting a row whose id is already present is a no-op. -/
theorem insertOnConflictDoNothing_present {st : StoreState} {d : MarketData}
    (h : st.any (fun r => r.ID = d.ID) = true) :
    insertOnConflictDoNothing st d = st := by
  simp [insertOnConflictDoNothing, h]

/-- An id present before an insert is still present after it. -/
theorem any_insert_mono {st : StoreState} {y : String} (d : MarketData)
    (h : st.any (fun r => r.ID = y) = true) :
    (insertOnConflictDoNothing st d).any (fun r => r.ID = y) = true := by
  unfold insertOnConflictDoNothing
  split
  · exact h
  · simp only [List.any_append, h, Bool.true_or]

/-- After inserting `d`, the id of `d` is present. -/
theorem any_insert_self (st : StoreState) (d : MarketData) :
    (insertOnConflictDoNothing st d).any (fun r => r.ID = d.ID) = true := by
  unfold insertOnConflictDoNothing
  split
  · assumption
  · simp [List.any_append]

/-- An id present before a batch of inserts is still present after it. -/
theorem any_foldl_mono {y : String} :
    ∀ (l : List MarketData) (st : StoreState),
      st.any (fun r => r.ID = y) = true →
      (l.foldl insertOnConflictDoNothing st).any (fun r => r.ID = y) = true := by
  intro l
  induction l with
  | nil => intro st h; exact h
  | cons a rest ih =>
    intro st h
    exact ih _ (any_insert_mono a h)

/-- After a batch of inserts, the id of every batch member is present. -/
theorem any_foldl_of_mem :
    ∀ (l : List MarketData) (st : StoreState) (d : MarketData), d ∈ l →
      (l.foldl insertOnConflictDoNothing st).any (fun r => r.ID = d.ID) = true := by
  intro l
  induction l with
  | nil => intro st d h; exact absurd h (List.not_mem_nil d)
  | cons a rest ih =>
    intro st d h
    rcases List.mem_cons.mp h with rfl | hmem
    · exact any_foldl_mono rest _ (any_insert_self st d)
    · exact ih _ d hmem

/-- A batch of inserts whose ids are all already present is a no-op. -/
theorem foldl_insert_noop :
    ∀ (l : List MarketData) (st : StoreState),
      (∀ d ∈ l, st.any (fun r => r.ID = d.ID) = true) →
      l.foldl insertOnConflictDoNothing st = st := by
  intro l
  induction l with
  | nil => intro st _; rfl
  | cons a rest ih =>
    intro st h
    have ha : insertOnConflictDoNothing st a = st :=
      insertOnConflictDoNothing_present (h a (List.mem_cons_self a rest))
    simp only [List.foldl_cons, ha]
    exact ih st (fun d hd => h d (List.mem_cons_of_mem a hd))

/-- Re-running a successful `SaveMarketData` on its own output is a no-op
that succeeds: every id of the batch is already stored, so each
`ON CONFLICT (id) DO NOTHING` insert does nothing. -/
theorem saveMarketData_idem_general (data : List MarketData)
    (st st' : StoreState) (h : SaveMarketData data st = .ok st') :
    SaveMarketData data st' = .ok st' := by
  by_cases hne : data = []
  · subst hne
    simp only [SaveMarketData, if_true, Except.ok.injEq, eq_self_iff_true,
      if_pos] at h
    subst h
    rfl
  · unfold SaveMarketData at h ⊢
    rw [if_neg hne] at h ⊢
    cases hv : validateBatch 0 data with
    | error e => rw [hv] at h; cases h
    | ok u =>
      cases u
      rw [hv] at h
      simp only [Except.ok.injEq] at h
      subst h
      simp only [Except.ok.injEq]
      exact foldl_insert_noop data _ (fun d hd => any_foldl_of_mem data st d hd)

/-- C7: saving the same valid observation a second time returns success and
leaves the stored state exactly as after the first save (duplicate insert
is a no-op, not an error). -/
theorem saveMarketData_idempotent (o : MarketData) (st st' : StoreState)
    (_hvalid : validateMarketData o = .ok ())
    (hfirst : SaveMarketData [o] st = .ok st') :
    SaveMarketData [o] st' = .ok st' :=
  saveMarketData_idem_general [o] st st' hfirst

/-! ## Registry semantics (C8) -/

/-- A fold of registrations that never binds `name` does not change what
`name` resolves to. -/
theorem getDataSource_foldl_not_mem :
    ∀ (regs : List (String × DataSource)) (f : DataSourceFactory)
      (name : String), name ∉ regs.map Prod.fst →
      GetDataSource (regs.foldl (fun g p => Register g p.1 p.2) f) name =
        GetDataSource f name := by
  intro regs
  induction regs with
  | nil => intro f name _; rfl
  | cons p rest ih =>
    intro f name h
    simp only [List.map_cons, List.mem_cons, not_or] at h
    obtain ⟨h1, h2⟩ := h
    simp only [List.foldl_cons]
    rw [ih _ name h2]
    simp [GetDataSource, Register, h1]

/-- C8: on the registry, a `Register` makes the name resolve to the
registered source (so a later `Register` of the same name replaces the
binding), and resolving a name that was never registered yields `none`
(absence, not an error). -/
theorem register_getDataSource_spec :
    (∀ (f : DataSourceFactory) (name : String) (source : DataSource),
        GetDataSource (Register f name source) name = some source) ∧
    (∀ (f : DataSourceFactory) (name : String) (s1 s2 : DataSource),
        GetDataSource (Register (Register f name s1) name s2) name = some s2) ∧
    (∀ (regs : List (String × DataSource)) (name : String),
        name ∉ regs.map Prod.fst →
        GetDataSource (registerAll regs) name = none) := by
  refine ⟨?_, ?_, ?_⟩
  · intro f name source
    simp [GetDataSource, Register]
  · intro f name s1 s2
    simp [GetDataSource, Register]
  · intro regs name h
    rw [registerAll, getDataSource_foldl_not_mem regs _ name h]
    rfl

/-! ## The synthetic exchange source (internal/datasource/exchange.go) -/

/-- `ExchangeDataSource` (exchange.go lines 12-16). -/
structure ExchangeDataSource where
  name : String
  apiKey : String
  apiSecret : String

/-- The run-time inputs consumed by one `GetMarketData` call: the generated
uuid string, `time.Now()`, and the two `rand.Float64()` draws (each lies in
`[0, 1)` by that function's contract). -/
structure FetchEnv where
  uuid : String
  now : Int
  r1 : ℚ
  r2 : ℚ

/-- `ExchangeDataSource.GetMarketData` (exchange.go lines 28-44): always
returns, without error, exactly one synthetic observation for the requested
symbol, priced `1000 + rand*100` with volume `10000 + rand*1000`, stamped
with the current time and the source's name. -/
def ExchangeDataSource.GetMarketData (e : ExchangeDataSource)
    (env : FetchEnv) (symbol : String) : Except String (List MarketData) :=
  .ok [{ ID := env.uuid
         Symbol := symbol
         Price := 1000 + env.r1 * 100
         Volume := 10000 + env.r2 * 1000
         Timestamp := env.now
         Source := e.name }]

/-- The run-time inputs consumed by one `GetHistoricalData` call: per
iteration `i`, the generated uuid and the two `rand.Float64()` draws. -/
structure HistEnv where
  uuid : Nat → String
  r1 : Nat → ℚ
  r2 : Nat → ℚ

/-- One hour, in the seconds-valued instants of the model
(`current.Add(1 * time.Hour)`). -/
def oneHour : Int := 3600

/-- The generation loop of `GetHistoricalData` (exchange.go lines 64-76):
starting at `current`, emit one observation per hour while strictly before
`endT`. -/
def genHistoricalData (e : ExchangeDataSource) (env : HistEnv)
    (symbol : String) (i : Nat) (current endT : Int) : List MarketData :=
  if h : current < endT then
    { ID := env.uuid i
      Symbol := symbol
      Price := 1000 + env.r1 i * 100
      Volume := 10000 + env.r2 i * 1000
      Timestamp := current
      Source := e.name } ::
      genHistoricalData e env symbol (i + 1) (current + oneHour) endT
  else []
termination_by (endT - current).toNat
decreasing_by
  simp only [oneHour]
  omega

/-- `ExchangeDataSource.GetHistoricalData` (exchange.go lines 47-79).
`startTime`/`endTime` model the `time.Parse(time.RFC3339, _)` outcomes:
`some t` when the string parses to instant `t`; a failed parse falls back
to `now - 24h` (start) or `now` (end). -/
def ExchangeDataSource.GetHistoricalData (e : ExchangeDataSource)
    (env : HistEnv) (now : Int) (symbol : String)
    (startTime endTime : Option Int) : Except String (List MarketData) :=
  let start := startTime.getD (now - 24 * oneHour)
  let endT := endTime.getD now
  .ok (genHistoricalData e env symbol 0 start endT)

/-! ## Historical data: ascending timestamps within range (C9) -/

/-- Every observation the generation loop emits is stamped at or after the
loop's current instant and strictly before the end instant. -/
theorem genHistoricalData_mem_bounds (e : ExchangeDataSource) (env : HistEnv)
    (symbol : String) :
    ∀ (i : Nat) (current endT : Int) (x : MarketData),
      x ∈ genHistoricalData e env symbol i current endT →
      current ≤ x.Timestamp ∧ x.Timestamp < endT := by
  intro i current endT
  induction i, current, endT using genHistoricalData.induct e env symbol with
  | case1 i current endT h ih =>
    intro x hx
    rw [genHistoricalData, dif_pos h] at hx
    rcases List.mem_cons.mp hx with rfl | hmem
    · exact ⟨le_refl _, h⟩
    · have := ih x hmem
      constructor
      · have h2 : current ≤ current + oneHour := by simp [oneHour]
        exact le_trans h2 this.1
      · exact this.2
  | case2 i current endT h =>
    intro x hx
    rw [genHistoricalData, dif_neg h] at hx
    exact absurd hx (List.not_mem_nil x)

/-- The timestamps the generation loop emits are strictly ascending. -/
theorem genHistoricalData_chain (e : ExchangeDataSource) (env : HistEnv)
    (symbol : String) :
    ∀ (i : Nat) (current endT : Int),
      List.Chain' (fun a b => a.Timestamp < b.Timestamp)
        (genHistoricalData e env symbol i current endT) := by
  intro i current endT
  induction i, current, endT using genHistoricalData.induct e env symbol with
  | case1 i current endT h ih =>
    rw [genHistoricalData, dif_pos h]
    refine List.chain'_cons'.mpr ⟨?_, ih⟩
    intro y hy
    have hmem : y ∈ genHistoricalData e env symbol (i + 1) (current + oneHour) endT :=
      List.mem_of_mem_head? hy
    have := (genHistoricalData_mem_bounds e env symbol (i + 1)
      (current + oneHour) endT y hmem).1
    simp only
    have h2 : current < current + oneHour := by simp [oneHour]
    exact lt_of_lt_of_le h2 this
  | case2 i current endT h =>
    rw [genHistoricalData, dif_neg h]
    exact List.chain'_nil

/-- C9: for every symbol and every RFC3339-parseable start/end pair with
start before end, `GetHistoricalData` returns without error a list whose
timestamps are strictly ascending, each at or after the start and strictly
before the end. -/
theorem getHistoricalData_spec (e : ExchangeDataSource) (env : HistEnv)
    (now : Int) (symbol : String) (s t : Int) (hst : s < t) :
    ∃ l, ExchangeDataSource.GetHistoricalData e env now symbol
          (some s) (some t) = .ok l ∧
      List.Chain' (fun a b => a.Timestamp < b.Timestamp) l ∧
      ∀ x ∈ l, s ≤ x.Timestamp ∧ x.Timestamp < t := by
  refine ⟨genHistoricalData e env symbol 0 s t, rfl, ?_, ?_⟩
  · exact genHistoricalData_chain e env symbol 0 s t
  · exact genHistoricalData_mem_bounds e env symbol 0 s t

/-! ## `GetMarketData` of the synthetic source (C10) -/

/-- C10 (amended): for every non-empty symbol, a source with a non-empty
name, and run-time inputs honouring their contracts (a non-empty uuid, a
non-zero clock, non-negative `rand.Float64()` draws), `GetMarketData`
returns without error exactly one observation carrying the requested
symbol and the source's name, and that observation passes
`validateMarketData`. -/
theorem getMarketData_valid (e : ExchangeDataSource) (env : FetchEnv)
    (symbol : String) (hsym : symbol ≠ "") (hname : e.name ≠ "")
    (huuid : env.uuid ≠ "") (hnow : env.now ≠ 0)
    (hr1 : 0 ≤ env.r1) (hr2 : 0 ≤ env.r2) :
    ∃ obs, ExchangeDataSource.GetMarketData e env symbol = .ok [obs] ∧
      obs.Symbol = symbol ∧ obs.Source = e.name ∧
      validateMarketData obs = .ok () := by
  refine ⟨_, rfl, rfl, rfl, ?_⟩
  have hp : ¬((1000 : ℚ) + env.r1 * 100 ≤ 0) := by
    push_neg
    have : (0 : ℚ) ≤ env.r1 * 100 := by positivity
    linarith
  have hv : ¬((10000 : ℚ) + env.r2 * 1000 < 0) := by
    push_neg
    have : (0 : ℚ) ≤ env.r2 * 1000 := by positivity
    linarith
  simp [validateMarketData, huuid, hsym, hp, hv, hnow, hname]

/-- The observation `GetMarketData` produces for the empty symbol with the
"binance" source and benign run-time inputs. -/
def emptySymbolObs : MarketData :=
  { ID := "a"
    Symbol := ""
    Price := 1000
    Volume := 10000
    Timestamp := 1
    Source := "binance" }

/-- C10 (counterexample): at symbol `""`, `GetMarketData` still returns its
single observation, but that observation fails `validateMarketData` (the
symbol rule), so the claim "for every symbol the result satisfies
`validateMarketData`" is false as stated. -/
theorem getMarketData_invalid_on_empty_symbol :
    ExchangeDataSource.GetMarketData
        { name := "binance", apiKey := "key", apiSecret := "secret" }
        { uuid := "a", now := 1, r1 := 0, r2 := 0 } "" =
      .ok [emptySymbolObs] ∧
    validateMarketData emptySymbolObs = .error "symbol is required" := by
  constructor
  · simp [ExchangeDataSource.GetMarketData, emptySymbolObs]
  · simp [validateMarketData, emptySymbolObs]

/-! ## The ticker loop (C5, C6)

`startDataProcessing` (main.go lines 101-119) is
`ticker := time.NewTicker(interval); for { select { case <-ctx.Done():
return; case <-ticker.C: processData(...) } }`.  Its timing behaviour is
modelled discretely with Go's documented `time.Ticker` semantics: the
ticker's channel holds at most one pending tick (ticks that fire while one
is already pending are dropped), and the loop, which blocks in
`processData` for the cycle's duration, receives a pending tick as soon as
it returns to the `select`.  `Scheduler.Start` (schedule.go lines 27-40)
runs `fetchStockList` once synchronously and only then starts its ticker
loop. -/

/-- The state of the ticker loop simulation: the instant at which the loop
is next free at the `select`, whether a tick is pending in the ticker's
capacity-one channel, and the start instants of the cycles run so far. -/
structure TickerSim where
  freeAt : Nat
  buffered : Bool
  starts : List Nat
deriving DecidableEq, Repr

/-- Handling of one ticker fire at instant `t` (each cycle blocks the loop
for `dur`): a pending tick is consumed the moment the loop frees up (a
catch-up cycle); then the fire at `t` either starts a cycle at once (loop
idle), is buffered (channel empty), or is dropped (channel full). -/
def tickStep (dur : Nat) (s : TickerSim) (t : Nat) : TickerSim :=
  let s1 := if s.buffered && decide (s.freeAt ≤ t) then
      { freeAt := s.freeAt + dur, buffered := false,
        starts := s.starts ++ [s.freeAt] }
    else s
  if s1.freeAt ≤ t then
    { s1 with freeAt := t + dur, starts := s1.starts ++ [t] }
  else if s1.buffered then s1
  else { s1 with buffered := true }

/-- The fire instants of `time.NewTicker(interval)`: `interval`,
`2*interval`, ..., `n*interval`. -/
def tickTimes (interval n : Nat) : List Nat :=
  (List.range n).map (fun i => (i + 1) * interval)

/-- The cycle start instants of the bare ticker loop of
`startDataProcessing` over the first `n` ticker fires; a tick still pending
after the last fire is consumed when the loop frees up. -/
def runTickerStarts (dur interval n : Nat) : List Nat :=
  let s := (tickTimes interval n).foldl (tickStep dur)
    { freeAt := 0, buffered := false, starts := [] }
  if s.buffered then s.starts ++ [s.freeAt] else s.starts

/-- The number of dispatch cycles the loop executes. -/
def runTickerCycles (dur interval n : Nat) : Nat :=
  (runTickerStarts dur interval n).length

/-- `startDataProcessing` (main.go lines 101-119): no immediate cycle; the
first `processData` runs at the first ticker fire. -/
def startDataProcessingRuns (dur interval n : Nat) : List Nat :=
  runTickerStarts dur interval n

/-- `Scheduler.Start` (schedule.go lines 27-40): one synchronous
`fetchStockList` at instant 0, then the ticker loop. -/
def schedulerStartRuns (dur interval n : Nat) : List Nat :=
  0 :: runTickerStarts dur interval n

/-- Ticker fires that all happen while the loop is still busy (strictly
before it frees up) start no cycle: the first such fire is buffered (if the
channel was empty) and every further one is dropped. -/
theorem foldl_tickStep_busy (dur : Nat) :
    ∀ (ts : List Nat) (f : Nat) (b : Bool) (st : List Nat),
      (∀ t ∈ ts, t < f) →
      ts.foldl (tickStep dur) ⟨f, b, st⟩ = ⟨f, b || !ts.isEmpty, st⟩ := by
  intro ts
  induction ts with
  | nil => intro f b st _; simp
  | cons t rest ih =>
    intro f b st h
    have ht : t < f := h t (List.mem_cons_self t rest)
    have hstep : tickStep dur ⟨f, b, st⟩ t = ⟨f, true, st⟩ := by
      cases b <;> simp [tickStep, Nat.not_le.mpr ht]
    rw [List.foldl_cons, hstep, ih f true st (fun u hu => h u (List.mem_cons_of_mem t hu))]
    simp

/-- C5 (amended): when a dispatch cycle of length `dur` starts at the first
ticker fire and is still running at every later fire (`n*interval <
interval + dur`, `n ≥ 2`), the Go ticker's capacity-one channel buffers the
first overlapped tick and drops the rest, and the loop runs exactly one
catch-up cycle — a cycle spanning two or more tick boundaries yields two
executions (the original and one catch-up), not one and not one per tick. -/
theorem tickerLoop_queueOneDropRest (dur interval n : Nat)
    (hi : 1 ≤ interval) (hn : 2 ≤ n)
    (hspan : n * interval < interval + dur) :
    runTickerStarts dur interval n = [interval, interval + dur] ∧
    runTickerCycles dur interval n = 2 := by
  obtain ⟨n', rfl⟩ : ∃ n', n = n' + 1 := ⟨n - 1, by omega⟩
  have htt : tickTimes interval (n' + 1) =
      interval ::
        ((List.range n').map Nat.succ).map (fun i => (i + 1) * interval) := by
    rw [tickTimes, List.range_succ_eq_map]
    simp
  have hstep1 : tickStep dur ⟨0, false, []⟩ interval =
      ⟨interval + dur, false, [interval]⟩ := by
    simp [tickStep]
  have hbusy : ∀ t ∈ ((List.range n').map Nat.succ).map
      (fun i => (i + 1) * interval), t < interval + dur := by
    intro t ht
    simp only [List.mem_map, List.mem_range] at ht
    obtain ⟨i, ⟨j, hj, rfl⟩, rfl⟩ := ht
    have hle : (j.succ + 1) * interval ≤ (n' + 1) * interval :=
      Nat.mul_le_mul_right interval (by omega)
    omega
  have hne : ((List.range n').map Nat.succ).map
      (fun i => (i + 1) * interval) ≠ [] := by
    simp only [ne_eq, List.map_eq_nil, List.range_eq_nil]
    omega
  have hmain : runTickerStarts dur interval (n' + 1) =
      [interval, interval + dur] := by
    rw [runTickerStarts, htt]
    simp only [List.foldl_cons, hstep1]
    rw [foldl_tickStep_busy dur _ _ _ _ hbusy]
    simp [List.isEmpty_iff, hne]
    omega
  exact ⟨hmain, by rw [runTickerCycles, hmain]; rfl⟩

/-- C5 (counterexample): a cycle of length 5 starting at the first fire of
a 2-unit ticker spans the fires at 4 and 6; the fire at 4 is queued in the
ticker channel, not dropped, so a catch-up cycle starts at 7 when the slow
cycle finishes — two executions for the span, where the claim predicts
exactly one and no catch-up. -/
theorem tickerLoop_tickQueued_counterexample :
    runTickerStarts 5 2 2 = [2, 7] ∧ runTickerCycles 5 2 2 ≠ 1 := by
  decide

/-- Whatever the ticker loop does, it only ever appends to the record of
cycle starts. -/
theorem foldl_tickStep_starts_extend (dur : Nat) :
    ∀ (ts : List Nat) (s : TickerSim),
      ∃ l, (ts.foldl (tickStep dur) s).starts = s.starts ++ l := by
  intro ts
  induction ts with
  | nil => intro s; exact ⟨[], by simp⟩
  | cons t rest ih =>
    intro s
    obtain ⟨l1, hl1⟩ := ih (tickStep dur s t)
    have hstep : ∃ l0, (tickStep dur s t).starts = s.starts ++ l0 := by
      unfold tickStep
      by_cases hb : (s.buffered && decide (s.freeAt ≤ t)) = true
      · simp only [hb, if_true]
        by_cases h2 : s.freeAt + dur ≤ t
        · exact ⟨[s.freeAt, t], by simp [h2]⟩
        · exact ⟨[s.freeAt], by simp [h2]⟩
      · simp only [hb, if_false]
        by_cases h2 : s.freeAt ≤ t
        · exact ⟨[t], by simp [h2]⟩
        · by_cases h3 : s.buffered
          · exact ⟨[], by simp [h2, h3]⟩
          · exact ⟨[], by simp [h2, h3]⟩
    obtain ⟨l0, hl0⟩ := hstep
    exact ⟨l0 ++ l1, by rw [List.foldl_cons, hl1, hl0, List.append_assoc]⟩

/-- C6 (amended): `Scheduler.Start` runs its job once immediately and
synchronously (a run at instant 0) before its periodic loop, whereas the
data-processing loop `startDataProcessing` performs no immediate dispatch
cycle: its first `processData` starts at the first ticker fire, one full
interval after start. -/
theorem schedulerStart_immediate_dataProcessing_delayed
    (dur interval n : Nat) :
    (schedulerStartRuns dur interval n).head? = some 0 ∧
    (1 ≤ n →
      (startDataProcessingRuns dur interval n).head? = some interval) := by
  refine ⟨rfl, ?_⟩
  intro hn
  obtain ⟨n', rfl⟩ : ∃ n', n = n' + 1 := ⟨n - 1, by omega⟩
  obtain ⟨ts', hts'⟩ : ∃ ts', tickTimes interval (n' + 1) = interval :: ts' := by
    have h0 : (0 + 1) * interval = interval := by omega
    exact ⟨_, by rw [tickTimes, List.range_succ_eq_map, List.map_cons, h0]⟩
  have hstep1 : tickStep dur ⟨0, false, []⟩ interval =
      ⟨interval + dur, false, [interval]⟩ := by
    simp [tickStep]
  rw [startDataProcessingRuns, runTickerStarts, hts']
  simp only [List.foldl_cons, hstep1]
  obtain ⟨l, hl⟩ := foldl_tickStep_starts_extend dur ts'
    ⟨interval + dur, false, [interval]⟩
  split
  · simp [hl]
  · simp [hl]

/-- C6 (counterexample): with a 30-unit interval, the cycle start instants
of `startDataProcessing` are 30, 60, 90, ...: no dispatch cycle runs at
instant 0, so the first data waits one full interval, contrary to the
claim of an immediate synchronous first cycle. -/
theorem startDataProcessing_noImmediateCycle_counterexample :
    startDataProcessingRuns 1 30 3 = [30, 60, 90] ∧
    (startDataProcessingRuns 1 30 3).head? ≠ some 0 ∧
    0 ∉ startDataProcessingRuns 1 30 3 := by
  decide

/-! ## Concrete instances used by the witnesses -/

/-- An observation violating the id rule (empty identifier). -/
def badObs : MarketData :=
  { ID := "", Symbol := "BTCUSDT", Price := 1, Volume := 1,
    Timestamp := 1, Source := "binance" }

/-- A source whose fetch returns the single invalid observation. -/
def badSource : DataSource :=
  { getMarketData := fun _ => .ok [badObs]
    getHistoricalData := fun _ _ _ => .ok []
    name := "binance" }

/-- A registry binding "binance" to `badSource`. -/
def factoryW : DataSourceFactory :=
  Register NewDataSourceFactory "binance" badSource

/-- The empty engine state. -/
def engineState0 : EngineState := { store := [], busCalls := [], visited := [] }

/-- A valid observation. -/
def obsW : MarketData :=
  { ID := "a", Symbol := "BTCUSDT", Price := 10000, Volume := 100,
    Timestamp := 1, Source := "binance" }

/-- A behaviourally trivial source for the registry instances. -/
def stubSource : DataSource :=
  { getMarketData := fun _ => .ok []
    getHistoricalData := fun _ _ _ => .ok []
    name := "okx" }

/-- A concrete exchange source. -/
def exchW : ExchangeDataSource := { name := "binance", apiKey := "k", apiSecret := "s" }

/-- Concrete run-time inputs for one `GetMarketData` call. -/
def fetchEnvW : FetchEnv := { uuid := "a", now := 1, r1 := 0, r2 := 0 }

/-- Concrete run-time inputs for one `GetHistoricalData` call. -/
def histEnvW : HistEnv :=
  { uuid := fun _ => "a", r1 := fun _ => 0, r2 := fun _ => 0 }

/-! ## Witnesses -/

/-- Witness for the fail-closed theorem: a one-element batch with an empty
id is rejected by the save and the dispatcher state is unchanged. -/
theorem processPair_failClosed_witness :
    (∃ e, SaveMarketData [badObs] engineState0.store = .error e) ∧
      processPair factoryW "BTCUSDT" "binance" engineState0 = engineState0 :=
  processPair_failClosed factoryW "BTCUSDT" "binance" badSource [badObs]
    engineState0 rfl rfl
    ⟨badObs, by simp, by simp [validateMarketData, badObs]⟩

/-- Witness for storage-before-bus: with the failing save of the invalid
batch, the dispatcher leaves the state (bus calls included) unchanged. -/
theorem processPair_storageBeforeBus_witness :
    processPair factoryW "BTCUSDT" "binance" engineState0 = engineState0 := by
  obtain ⟨e, he⟩ := @saveMarketData_error_of_invalid [badObs]
    engineState0.store ⟨badObs, by simp, by simp [validateMarketData, badObs]⟩
  exact processPair_storageBeforeBus factoryW "BTCUSDT" "binance" badSource
    [badObs] engineState0 e rfl rfl he

/-- Witness for the slow-cycle scenario: a 10-unit cycle over a 3-unit
ticker with 3 fires runs exactly the first cycle and one catch-up. -/
theorem tickerLoop_queueOneDropRest_witness :
    runTickerStarts 10 3 3 = [3, 13] ∧ runTickerCycles 10 3 3 = 2 :=
  tickerLoop_queueOneDropRest 10 3 3 (by decide) (by decide) (by decide)

/-- Witness for the immediate-run contrast at interval 30 with 3 fires. -/
theorem schedulerStart_immediate_witness :
    (schedulerStartRuns 1 30 3).head? = some 0 ∧
    (startDataProcessingRuns 1 30 3).head? = some 30 := by
  have h := schedulerStart_immediate_dataProcessing_delayed 1 30 3
  exact ⟨h.1, h.2 (by decide)⟩

/-- Witness for idempotence: saving `obsW` into the store that already
holds it succeeds and leaves the store unchanged. -/
theorem saveMarketData_idempotent_witness :
    SaveMarketData [obsW] [obsW] = .ok [obsW] := by
  have h1 : SaveMarketData [obsW] [] = .ok [obsW] := rfl
  exact saveMarketData_idempotent obsW [] [obsW] rfl h1

/-- Witness for the registry: a never-registered name resolves to `none`,
a registered one to its source. -/
theorem register_getDataSource_spec_witness :
    GetDataSource (registerAll [("binance", stubSource)]) "okx" = none ∧
    GetDataSource (Register NewDataSourceFactory "binance" stubSource)
      "binance" = some stubSource := by
  constructor
  · exact register_getDataSource_spec.2.2 [("binance", stubSource)] "okx"
      (by decide)
  · exact register_getDataSource_spec.1 NewDataSourceFactory "binance"
      stubSource

/-- Witness for the historical range 0..7200 (two one-hour steps). -/
theorem getHistoricalData_spec_witness :
    ∃ l, ExchangeDataSource.GetHistoricalData exchW histEnvW 0 "BTCUSDT"
          (some 0) (some 7200) = .ok l ∧
      List.Chain' (fun a b => a.Timestamp < b.Timestamp) l ∧
      ∀ x ∈ l, 0 ≤ x.Timestamp ∧ x.Timestamp < 7200 :=
  getHistoricalData_spec exchW histEnvW 0 "BTCUSDT" 0 7200 (by decide)

/-- Witness for the amended `GetMarketData` claim at symbol "BTCUSDT". -/
theorem getMarketData_valid_witness :
    ∃ obs, ExchangeDataSource.GetMarketData exchW fetchEnvW "BTCUSDT" =
        .ok [obs] ∧
      obs.Symbol = "BTCUSDT" ∧ obs.Source = exchW.name ∧
      validateMarketData obs = .ok () :=
  getMarketData_valid exchW fetchEnvW "BTCUSDT" (by decide) (by decide)
    (by decide) (by decide) (by decide) (by decide)
